import Mathlib

/-!
Verification of the claude-notes filtering core.

The definitions below are a shallow embedding of `claude_notes/parser.py`
(warmup detection, inclusion filtering, transcript loading, conversation
info, summaries).  The time-range filter and the fuzzy encoded-name matcher
live in `claude_notes/cli.py`, which is not part of the provided sources
(only its tests are), so those two are modelled from the specification and
marked as such.

Python dictionaries coming from JSON lines are modelled by `Record`: the six
recognized fields at the top level plus the optional nested `message`
wrapper.  Python truthiness, `dict.get`, `x or y`, `str.strip`, string
slicing and `min`/`max` over strings are modelled explicitly.
-/

namespace ClaudeNotes

/-- A JSON-like field value as it occurs in transcript records.  A
structured (non-string) content list is modelled by its element count:
no operation in this core inspects list elements, only whether the list is
a string (it is not) and its truthiness (non-emptiness). -/
inductive JVal where
  | str (s : String)
  | num (n : Int)
  | bool (b : Bool)
  | null
  | list (elems : Nat)
  deriving DecidableEq

/-- Python truthiness of a field value. -/
def truthy : JVal → Bool
  | .str s => !s.isEmpty
  | .num n => n != 0
  | .bool b => b
  | .null => false
  | .list elems => elems != 0

/-- Python truthiness of a `dict.get` result (`None` for a missing key). -/
def truthyOpt : Option JVal → Bool
  | some v => truthy v
  | none => false

/-- The recognized fields of one record location (top level, or the dict
nested under the `message` key).  `none` models a missing key. -/
structure Fields where
  role : Option JVal
  content : Option JVal
  isMeta : Option JVal
  timestamp : Option String
  sessionId : Option String
  type : Option String
  deriving DecidableEq

/-- A record location with no keys at all (the empty dict). -/
def noFields : Fields := ⟨none, none, none, none, none, none⟩

/-- One parsed transcript line: the top-level fields and the optional dict
nested under the `message` key. -/
structure Record where
  top : Fields
  message : Option Fields
  deriving DecidableEq

/-- Python `a or b` on two `dict.get` results: keeps the left value when it
is truthy, otherwise yields the right one. -/
def pyOr (a b : Option JVal) : Option JVal :=
  match a with
  | some v => if truthy v then some v else b
  | none => b

/-- Python `m.get("message", \x7b\x7d).get(f)`: look a field up in the nested
`message` dict, `None` when `message` is absent. -/
def nestedGet (r : Record) (f : Fields → Option JVal) : Option JVal :=
  match r.message with
  | some m => f m
  | none => none

/-- Python `str.strip()`: remove leading and trailing whitespace. -/
def pyStrip (s : String) : String :=
  ⟨((s.data.dropWhile Char.isWhitespace).reverse.dropWhile Char.isWhitespace).reverse⟩

/-- `is_warmup_conversation` from `claude_notes/parser.py`: the first
record's effective role must be `"user"` and its effective content must be a
string equal to `"Warmup"` after stripping. -/
def is_warmup_conversation (messages : List Record) : Bool :=
  match messages with
  | [] => false
  | first_msg :: _ =>
    let role := pyOr first_msg.top.role (nestedGet first_msg (fun f => f.role))
    if role = some (JVal.str "user") then
      let content := pyOr first_msg.top.content (nestedGet first_msg (fun f => f.content))
      match content with
      | some (JVal.str s) => pyStrip s == "Warmup"
      | _ => false
    else false

/-- Effective `isMeta` of a record, as used by `should_include_conversation`:
`m.get("isMeta", False) or m.get("message", \x7b\x7d).get("isMeta", False)`. -/
def effMeta (m : Record) : Bool :=
  truthyOpt m.top.isMeta || truthyOpt (nestedGet m (fun f => f.isMeta))

/-- `should_include_conversation` from `claude_notes/parser.py`. -/
def should_include_conversation (messages : List Record) (min_messages : Int)
    (trim_warmup : Bool) : Bool :=
  if messages.isEmpty then false
  else
    let messages_to_count :=
      if trim_warmup && is_warmup_conversation messages then messages.drop 2 else messages
    let actual_messages := messages_to_count.filter (fun m => !effMeta m)
    decide (min_messages ≤ (actual_messages.length : Int))

/-- `TranscriptParser._parse` from `claude_notes/parser.py`.  Each line is
stripped; empty lines are skipped; each remaining line is decoded
independently.  The JSON decoder itself is the Python standard library, so
it is a parameter: `Except.error` carries the decode error's message.  A
failing line appends a warning diagnostic (interpolating the file path and
the error) and is skipped.  Returns the loaded records and the emitted
diagnostics, each in file order. -/
def parseLines (decode : String → Except String Record) (filePath : String) :
    List String → List Record × List String
  | [] => ([], [])
  | line :: rest =>
    let stripped := pyStrip line
    let tail := parseLines decode filePath rest
    if stripped.isEmpty then tail
    else
      match decode stripped with
      | .ok data => (data :: tail.1, tail.2)
      | .error e =>
        (tail.1, ("Warning: Failed to parse line in " ++ filePath ++ ": " ++ e) :: tail.2)

/-- Python `min` over a list of strings (lexicographic), `none` when empty. -/
def pyMin : List String → Option String
  | [] => none
  | s :: rest =>
    match pyMin rest with
    | none => some s
    | some m => some (if s ≤ m then s else m)

/-- Python `max` over a list of strings (lexicographic), `none` when empty. -/
def pyMax : List String → Option String
  | [] => none
  | s :: rest =>
    match pyMax rest with
    | none => some s
    | some m => some (if m ≤ s then s else m)

/-- `get_conversation_info` from `claude_notes/parser.py`.  `fileName` is
`file_path.name` and `stem` is `file_path.stem`.  The returned Python dict
is modelled as an ordered key-value list, in insertion order. -/
def get_conversation_info (fileName stem : String) (messages : List Record) :
    List (String × JVal) :=
  if messages.isEmpty then []
  else
    let timestamps := messages.filterMap (fun msg => msg.top.timestamp)
    let actual_messages := messages.filter (fun m => !truthyOpt m.top.isMeta)
    let info := [("file_name", JVal.str fileName),
                 ("message_count", JVal.num actual_messages.length),
                 ("total_entries", JVal.num messages.length),
                 ("start_time", match pyMin timestamps with
                                | some t => JVal.str t
                                | none => JVal.null),
                 ("end_time", match pyMax timestamps with
                              | some t => JVal.str t
                              | none => JVal.null)]
    let info := if stem.isEmpty then info else info ++ [("conversation_id", JVal.str stem)]
    match messages with
    | first :: _ =>
      match first.top.sessionId with
      | some sid => info ++ [("session_id", JVal.str sid)]
      | none => info
    | [] => info

/-- Python `content.split("\n")[0][:100] + ("..." if len(content) > 100 else "")`
from `get_summary`: the first line truncated to 100 characters, with an
ellipsis appended iff the whole content is longer than 100 characters. -/
def summaryLine (content : String) : String :=
  ⟨(content.data.takeWhile (fun c => c ≠ '\n')).take 100 ++
    (if 100 < content.data.length then ('.' :: '.' :: '.' :: []) else [])⟩

/-- `get_summary` from `claude_notes/parser.py`: one forward scan; a record
whose top-level `type` is `"conversation_title"` returns its top-level
content (empty string when absent); otherwise a record with top-level role
`"user"` and truthy top-level content returns the summary line when that
content is a string, and is skipped when it is not. -/
def get_summary : List Record → Option JVal
  | [] => none
  | msg :: rest =>
    if msg.top.type = some "conversation_title" then
      some (msg.top.content.getD (JVal.str ""))
    else if msg.top.role = some (JVal.str "user") ∧ truthyOpt msg.top.content then
      match msg.top.content with
      | some (JVal.str content) => some (JVal.str (summaryLine content))
      | _ => get_summary rest
    else get_summary rest

/-- Modelled from the spec: `is_safe_char` from `claude_notes/cli.py`, which
is not under src/ (only its tests are).  A character is safe iff it is an
ASCII letter, an ASCII digit, or the dash. -/
def is_safe_char (c : Char) : Bool :=
  decide ('a' ≤ c ∧ c ≤ 'z') || decide ('A' ≤ c ∧ c ≤ 'Z') ||
    decide ('0' ≤ c ∧ c ≤ '9') || decide (c = '-')

/-- Modelled from the spec: the position-wise comparison loop of
`fuzzy_match_encoded_names` (from `claude_notes/cli.py`, not under src/),
over the two names' characters; `k` is the running ambiguous-position
count.  Equal characters pass; a differing safe character is a hard
mismatch; an unsafe character against a dash is ambiguous and counted;
anything else is a hard mismatch. -/
def fuzzyAux : List Char → List Char → Nat → Bool × Nat
  | [], [], k => (true, k)
  | a :: as, b :: bs, k =>
    if a = b then fuzzyAux as bs k
    else if is_safe_char a then (false, 0)
    else if b = '-' then fuzzyAux as bs (k + 1)
    else (false, 0)
  | _, _, _ => (false, 0)

/-- Modelled from the spec: `fuzzy_match_encoded_names` from
`claude_notes/cli.py`, which is not under src/ (only its tests are).
Names of different lengths never match; equal-length names are compared
position by position by `fuzzyAux`. -/
def fuzzy_match_encoded_names (ours reference : String) : Bool × Nat :=
  if ours.data.length ≠ reference.data.length then (false, 0)
  else fuzzyAux ours.data reference.data 0

/-- A position pair is ambiguous when our character is unsafe and the
reference character is the dash. -/
def ambiguous (p : Char × Char) : Bool :=
  !is_safe_char p.1 && decide (p.2 = '-')

/-- Recency windows accepted by the time filter. -/
inductive TimeWindow where
  | hour | day | week | month | year
  deriving DecidableEq

/-- Modelled from the spec: the flat window durations of `filter_by_past`
(from `claude_notes/cli.py`, not under src/), in seconds: hour=1h, day=24h,
week=7d, month=30d, year=365d. -/
def windowSeconds : TimeWindow → Int
  | .hour => 3600
  | .day => 86400
  | .week => 604800
  | .month => 2592000
  | .year => 31536000

/-- A conversation as seen by the time filter: an optional start time
(seconds on a timeline) and the source file name. -/
structure Conversation where
  start_time : Option Int
  file_name : String
  deriving DecidableEq

/-- Modelled from the spec: `filter_by_past` from `claude_notes/cli.py`,
which is not under src/ (only its tests are).  Selector `none` returns the
input unchanged; otherwise a conversation is kept iff it has a start time
and that time is at or after `now` minus the selector's window. -/
def filter_by_past (conversations : List Conversation) (selector : Option TimeWindow)
    (now : Int) : List Conversation :=
  match selector with
  | none => conversations
  | some w =>
    conversations.filter (fun c =>
      match c.start_time with
      | some t => decide (now - windowSeconds w ≤ t)
      | none => false)

/-- Whether `needle` occurs as a contiguous segment of `hay`. -/
def hasSeg (needle : List Char) : List Char → Bool
  | [] => needle.isEmpty
  | c :: rest => needle.isPrefixOf (c :: rest) || hasSeg needle rest

/-- A decoder that rejects every line, standing in for `json.loads` on a
malformed line; the error message is the one CPython produces for a line
that is not valid JSON. -/
def badLineDecode : String → Except String Record :=
  fun _ => Except.error "Expecting value"

/-- The comparison loop accepts any list against itself without consuming
ambiguity budget. -/
lemma fuzzyAux_self : ∀ (l : List Char) (k : Nat), fuzzyAux l l k = (true, k)
  | [], _ => rfl
  | a :: as, k => by simp [fuzzyAux, fuzzyAux_self as k]

/-- Membership in the filtered conversation list, for a non-`none`
selector. -/
lemma mem_filter_by_past (conversations : List Conversation) (w : TimeWindow)
    (now : Int) (c : Conversation) :
    c ∈ filter_by_past conversations (some w) now ↔
      c ∈ conversations ∧ ∃ t, c.start_time = some t ∧ now - windowSeconds w ≤ t := by
  simp only [filter_by_past, List.mem_filter]
  refine and_congr_right fun _ => ?_
  cases h : c.start_time with
  | none => simp
  | some t => simp [h]

/-- C9: on an empty loaded record sequence `get_conversation_info` returns
the empty dict, with no keys at all. -/
theorem conversation_info_empty (fileName stem : String) :
    get_conversation_info fileName stem [] = [] := rfl

/-- C8: `fuzzy_match_encoded_names` is reflexive: any string matches itself
with zero ambiguous positions. -/
theorem fuzzy_match_refl (s : String) : fuzzy_match_encoded_names s s = (true, 0) := by
  simp [fuzzy_match_encoded_names, fuzzyAux_self]

/-- C7: `filter_by_past` with selector `none` returns the input unchanged;
with any window it keeps exactly the conversations that have a start time
at or after `now` minus the window, so conversations without a start time
are always excluded. -/
theorem filter_by_past_spec :
    (∀ (conversations : List Conversation) (now : Int),
       filter_by_past conversations none now = conversations) ∧
    (∀ (conversations : List Conversation) (w : TimeWindow) (now : Int)
       (c : Conversation),
       c ∈ filter_by_past conversations (some w) now ↔
         c ∈ conversations ∧ ∃ t, c.start_time = some t ∧ now - windowSeconds w ≤ t) ∧
    (∀ (conversations : List Conversation) (w : TimeWindow) (now : Int)
       (c : Conversation), c.start_time = none →
       c ∉ filter_by_past conversations (some w) now) := by
  refine ⟨fun _ _ => rfl, mem_filter_by_past, ?_⟩
  intro conversations w now c hnone hmem
  rcases (mem_filter_by_past conversations w now c).1 hmem with ⟨-, t, ht, -⟩
  rw [hnone] at ht
  exact Option.noConfusion ht

/-- C7 witness: at a concrete input, the `none` selector is the identity and
a conversation without a start time is dropped by the `week` selector. -/
theorem filter_by_past_spec_witness :
    filter_by_past [⟨none, "no-timestamp.jsonl"⟩] none 0 = [⟨none, "no-timestamp.jsonl"⟩] ∧
    ⟨none, "no-timestamp.jsonl"⟩ ∉
      filter_by_past [⟨none, "no-timestamp.jsonl"⟩] (some TimeWindow.week) 0 :=
  ⟨filter_by_past_spec.1 [⟨none, "no-timestamp.jsonl"⟩] 0,
   filter_by_past_spec.2.2 [⟨none, "no-timestamp.jsonl"⟩] TimeWindow.week 0
     ⟨none, "no-timestamp.jsonl"⟩ rfl⟩

/-- C5 (amended form): loading is a per-line fold: the records are exactly
the successfully decoded stripped non-empty lines, in file order, with no
reordering or deduplication, and each failing line contributes one warning
diagnostic interpolating the file path and the decode error; no failure
aborts the rest of the load. -/
theorem parseLines_spec (decode : String → Except String Record) (filePath : String)
    (lines : List String) :
    parseLines decode filePath lines =
      (((lines.map pyStrip).filter (fun s => !s.isEmpty)).filterMap
          (fun s => (decode s).toOption),
       ((lines.map pyStrip).filter (fun s => !s.isEmpty)).filterMap
          (fun s =>
            match decode s with
            | .ok _ => none
            | .error e =>
              some ("Warning: Failed to parse line in " ++ filePath ++ ": " ++ e))) := by
  induction lines with
  | nil => rfl
  | cons l rest ih =>
    simp only [parseLines, List.map_cons, List.filter_cons]
    cases h : (pyStrip l).isEmpty with
    | true => simp [h, ih]
    | false =>
      cases hd : decode (pyStrip l) with
      | ok r => simp [h, hd, ih, List.filterMap_cons, Except.toOption]
      | error e => simp [h, hd, ih, List.filterMap_cons, Except.toOption]

/-- C5 counterexample: the diagnostic for a malformed line contains the file
name but not the content of the line that failed (the code interpolates the
decoder's error message, not the line). -/
theorem parse_diagnostic_cex :
    (parseLines badLineDecode "t.jsonl" ["[x"]).2 =
      ["Warning: Failed to parse line in t.jsonl: Expecting value"] ∧
    hasSeg "t.jsonl".data
      "Warning: Failed to parse line in t.jsonl: Expecting value".data = true ∧
    hasSeg "[x".data
      "Warning: Failed to parse line in t.jsonl: Expecting value".data = false := by
  decide

/-- The five-record example conversation of the spec: the `"Warmup"` user
prompt, the assistant greeting, and three substantive records. -/
def ex5 : List Record :=
  [⟨{ noFields with role := some (JVal.str "user"), content := some (JVal.str "Warmup") },
     none⟩,
   ⟨{ noFields with role := some (JVal.str "assistant"), content := some (JVal.list 1) },
     none⟩,
   ⟨{ noFields with role := some (JVal.str "user"), content := some (JVal.str "Hi") },
     none⟩,
   ⟨{ noFields with role := some (JVal.str "user"), content := some (JVal.str "Can you help me with a quick question?") }, none⟩,
   ⟨{ noFields with role := some (JVal.str "assistant"), content := some (JVal.list 1) },
     none⟩]

/-- A first record whose top-level content is the empty string (falsy) while
the nested `message.content` is `"Warmup"`. -/
def ex10 : Record :=
  ⟨{ noFields with role := some (JVal.str "user"), content := some (JVal.str "") },
    some { noFields with content := some (JVal.str "Warmup") }⟩

/-- C4: `is_warmup_conversation` is true exactly when the list is non-empty,
the first record's effective role is `"user"` and its effective content is a
string equal to `"Warmup"` after stripping; the empty list yields false. -/
theorem is_warmup_iff :
    is_warmup_conversation [] = false ∧
    ∀ messages : List Record,
      is_warmup_conversation messages = true ↔
        ∃ first rest, messages = first :: rest ∧
          pyOr first.top.role (nestedGet first (fun f => f.role)) = some (JVal.str "user") ∧
          ∃ s, pyOr first.top.content (nestedGet first (fun f => f.content)) =
                 some (JVal.str s) ∧
            pyStrip s = "Warmup" := by
  refine ⟨rfl, fun messages => ?_⟩
  cases messages with
  | nil => simp [is_warmup_conversation]
  | cons m rest =>
    simp only [is_warmup_conversation]
    by_cases hr : pyOr m.top.role (nestedGet m (fun f => f.role)) = some (JVal.str "user")
    · rw [if_pos hr]
      cases hc : pyOr m.top.content (nestedGet m (fun f => f.content)) with
      | none => simp [hr, hc]
      | some v => cases v <;> simp [hr, hc]
    · rw [if_neg hr]
      simp [hr]

/-- C1: `should_include_conversation` rejects the empty list; with trimming
on and a detected warmup it counts the non-meta records after dropping the
first two, otherwise it counts all non-meta records, and includes iff that
count reaches `min_messages`; on the spec's five-record example it includes
at threshold 3 and excludes at threshold 4. -/
theorem should_include_conversation_spec :
    (∀ (minM : Int) (trim : Bool), should_include_conversation [] minM trim = false) ∧
    (∀ (messages : List Record) (minM : Int), messages ≠ [] →
        is_warmup_conversation messages = true →
        should_include_conversation messages minM true =
          decide (minM ≤ (((messages.drop 2).filter (fun m => !effMeta m)).length : Int))) ∧
    (∀ (messages : List Record) (minM : Int) (trim : Bool), messages ≠ [] →
        trim = false ∨ is_warmup_conversation messages = false →
        should_include_conversation messages minM trim =
          decide (minM ≤ ((messages.filter (fun m => !effMeta m)).length : Int))) ∧
    should_include_conversation ex5 3 true = true ∧
    should_include_conversation ex5 4 true = false := by
  refine ⟨fun minM trim => rfl, ?_, ?_, by decide, by decide⟩
  · intro messages minM hne hw
    have h0 : messages.isEmpty = false := by simpa [List.isEmpty_iff] using hne
    simp [should_include_conversation, h0, hw]
  · intro messages minM trim hne htw
    have h0 : messages.isEmpty = false := by simpa [List.isEmpty_iff] using hne
    rcases htw with h | h <;> simp [should_include_conversation, h0, h]

/-- C1 witness: the general warmup-trimming clause applied to the concrete
five-record example at threshold 3. -/
theorem should_include_conversation_spec_witness :
    should_include_conversation ex5 3 true =
      decide ((3 : Int) ≤ (((ex5.drop 2).filter (fun m => !effMeta m)).length : Int)) :=
  should_include_conversation_spec.2.1 ex5 3 (by decide) (by decide)

/-- C10: the top-level-to-nested fallback is driven by Python truthiness,
not only by absence: a falsy top-level role or content behaves exactly like
a missing one, and a first record with top-level content `""` and nested
`message.content` `"Warmup"` is classified as a warmup. -/
theorem falsy_fallback :
    (∀ (v : JVal) (b : Option JVal), truthy v = false → pyOr (some v) b = b) ∧
    (∀ (v : JVal) (tf mf : Fields) (rest : List Record), truthy v = false →
        is_warmup_conversation (⟨{ tf with role := some v }, some mf⟩ :: rest) =
          is_warmup_conversation (⟨{ tf with role := none }, some mf⟩ :: rest)) ∧
    (∀ (v : JVal) (tf mf : Fields) (rest : List Record), truthy v = false →
        is_warmup_conversation (⟨{ tf with content := some v }, some mf⟩ :: rest) =
          is_warmup_conversation (⟨{ tf with content := none }, some mf⟩ :: rest)) ∧
    is_warmup_conversation [ex10] = true := by
  refine ⟨?_, ?_, ?_, by decide⟩
  · intro v b h
    simp [pyOr, h]
  · intro v tf mf rest h
    simp [is_warmup_conversation, nestedGet, pyOr, h]
  · intro v tf mf rest h
    simp [is_warmup_conversation, nestedGet, pyOr, h]

/-- C10 witness: the falsy-fallback clauses applied at the empty string. -/
theorem falsy_fallback_witness :
    pyOr (some (JVal.str "")) (some (JVal.str "user")) = some (JVal.str "user") :=
  falsy_fallback.1 (JVal.str "") (some (JVal.str "user")) (by decide)

/-- A position with equal characters is never counted as ambiguous. -/
lemma ambiguous_self (a : Char) : ambiguous (a, a) = false := by
  by_cases h : a = '-'
  · simp [ambiguous, is_safe_char, h]
  · simp [ambiguous, h]

/-- When every position is either equal or ambiguous, the comparison loop
accepts and adds the number of ambiguous positions to the accumulator. -/
lemma fuzzyAux_all_ok : ∀ (as bs : List Char) (k : Nat), as.length = bs.length →
    (∀ p ∈ as.zip bs, p.1 = p.2 ∨ (is_safe_char p.1 = false ∧ p.2 = '-')) →
    fuzzyAux as bs k = (true, k + ((as.zip bs).filter ambiguous).length) := by
  intro as
  induction as with
  | nil =>
    intro bs k h _
    cases bs with
    | nil => simp [fuzzyAux]
    | cons b bs => simp at h
  | cons a as ih =>
    intro bs k h hall
    cases bs with
    | nil => simp at h
    | cons b bs =>
      have hlen : as.length = bs.length := by simpa using h
      have htail : ∀ p ∈ as.zip bs, p.1 = p.2 ∨ (is_safe_char p.1 = false ∧ p.2 = '-') := by
        intro p hp
        exact hall p (by simp [List.zip_cons_cons, hp])
      rcases hall (a, b) (by simp [List.zip_cons_cons]) with hab | ⟨hu, hd⟩
      · have hab' : a = b := hab
        subst hab'
        rw [List.zip_cons_cons, List.filter_cons]
        simp only [ambiguous_self]
        simp [fuzzyAux, ih bs k hlen htail]
      · have hu' : is_safe_char a = false := hu
        have hdash : b = '-' := hd
        subst hdash
        have hab : a ≠ '-' := by
          intro he
          rw [he] at hu'
          simp [is_safe_char] at hu'
        rw [List.zip_cons_cons, List.filter_cons]
        have hamb : ambiguous (a, '-') = true := by simp [ambiguous, hu']
        rw [if_pos hamb]
        simp only [fuzzyAux]
        rw [if_neg hab, if_neg (by simp [hu'] : ¬is_safe_char a = true)]
        simp only [if_true]
        rw [ih bs (k + 1) hlen htail]
        simp only [List.length_cons, Prod.mk.injEq, true_and]
        omega

/-- A hard mismatch anywhere makes the comparison loop reject. -/
lemma fuzzyAux_mismatch : ∀ (as bs : List Char) (k : Nat), as.length = bs.length →
    (∃ p ∈ as.zip bs, p.1 ≠ p.2 ∧ (is_safe_char p.1 = true ∨ p.2 ≠ '-')) →
    (fuzzyAux as bs k).1 = false := by
  intro as
  induction as with
  | nil =>
    intro bs k h hex
    cases bs with
    | nil => simp at hex
    | cons b bs => simp at h
  | cons a as ih =>
    intro bs k h hex
    cases bs with
    | nil => simp at h
    | cons b bs =>
      have hlen : as.length = bs.length := by simpa using h
      rcases hex with ⟨p, hp, hne, hbad⟩
      rw [List.zip_cons_cons] at hp
      rcases List.mem_cons.mp hp with rfl | hp'
      · have hne' : a ≠ b := hne
        by_cases hsafe : is_safe_char a = true
        · simp [fuzzyAux, hne', hsafe]
        · have hbd : b ≠ '-' := by
            rcases hbad with h1 | h1
            · exact absurd h1 hsafe
            · exact h1
          simp [fuzzyAux, hne', hsafe, hbd]
      · by_cases hab : a = b
        · subst hab
          simp only [fuzzyAux, if_pos rfl]
          exact ih bs k hlen ⟨p, hp', hne, hbad⟩
        · by_cases hsafe : is_safe_char a = true
          · simp [fuzzyAux, hab, hsafe]
          · by_cases hbd : b = '-'
            · subst hbd
              simp only [fuzzyAux, if_neg hab, hsafe, Bool.false_eq_true, if_false,
                if_pos rfl]
              exact ih bs (k + 1) hlen ⟨p, hp', hne, hbad⟩
            · simp [fuzzyAux, hab, hsafe, hbd]

/-- C6: names of different lengths never match; equal-length names match
with the count of unsafe-against-dash positions when every other position
agrees character for character, and any differing position that is not an
unsafe-against-dash pair forces a no-match. -/
theorem fuzzy_match_spec (ours reference : String) :
    (ours.data.length ≠ reference.data.length →
        fuzzy_match_encoded_names ours reference = (false, 0)) ∧
    (ours.data.length = reference.data.length →
      ((∀ p ∈ ours.data.zip reference.data,
            p.1 = p.2 ∨ (is_safe_char p.1 = false ∧ p.2 = '-')) →
          fuzzy_match_encoded_names ours reference =
            (true, ((ours.data.zip reference.data).filter ambiguous).length)) ∧
      ((∃ p ∈ ours.data.zip reference.data,
            p.1 ≠ p.2 ∧ (is_safe_char p.1 = true ∨ p.2 ≠ '-')) →
          (fuzzy_match_encoded_names ours reference).1 = false)) := by
  constructor
  · intro h
    unfold fuzzy_match_encoded_names
    rw [if_pos h]
  · intro h
    constructor
    · intro hall
      have hres := fuzzyAux_all_ok ours.data reference.data 0 h hall
      unfold fuzzy_match_encoded_names
      rw [if_neg (by simp [h])]
      simpa using hres
    · intro hex
      have hres := fuzzyAux_mismatch ours.data reference.data 0 h hex
      unfold fuzzy_match_encoded_names
      rw [if_neg (by simp [h])]
      exact hres

/-- C6 witness: a length mismatch, an unsafe-against-dash match with one
ambiguous position, and a safe-character mismatch, each at concrete
strings. -/
theorem fuzzy_match_spec_witness :
    fuzzy_match_encoded_names "ab" "abc" = (false, 0) ∧
    fuzzy_match_encoded_names "x!" "x-" = (true, 1) ∧
    (fuzzy_match_encoded_names "ab" "cb").1 = false := by
  refine ⟨(fuzzy_match_spec "ab" "abc").1 (by decide), ?_, ?_⟩
  · have h := ((fuzzy_match_spec "x!" "x-").2 (by decide)).1 (by decide)
    exact h.trans (by decide)
  · exact ((fuzzy_match_spec "ab" "cb").2 (by decide)).2
      ⟨('a', 'c'), by decide, by decide, by decide⟩

/-- A record with no top-level fields and `isMeta` true only inside the
nested `message` dict. -/
def rNestedMeta : Record :=
  ⟨noFields, some { noFields with isMeta := some (JVal.bool true) }⟩

/-- C3 counterexample: for a single record whose `isMeta` is set only under
the nested `message` key, `get_conversation_info` reports `message_count`
1, while the count of records with neither top-level nor nested `isMeta`
true is 0. -/
theorem conversation_info_nested_meta_cex :
    (get_conversation_info "c.jsonl" "c" [rNestedMeta]).lookup "message_count" =
      some (JVal.num 1) ∧
    (([rNestedMeta] : List Record).filter (fun m => !effMeta m)).length = 0 := by
  decide

/-- C3 (amended form): for a non-empty loaded sequence, the reported
`message_count` equals the number of records whose top-level `isMeta` is
not truthy; the nested `message.isMeta` is not consulted. -/
theorem message_count_top_level (fileName stem : String) (messages : List Record)
    (h : messages ≠ []) :
    (get_conversation_info fileName stem messages).lookup "message_count" =
      some (JVal.num ((messages.filter (fun m => !truthyOpt m.top.isMeta)).length : Int)) := by
  cases messages with
  | nil => exact absurd rfl h
  | cons m0 rest =>
    by_cases hs : stem.isEmpty <;> cases hsid : m0.top.sessionId <;>
      simp [get_conversation_info, hs, hsid, List.lookup]

/-- C3 witness: the amended clause applied to the concrete one-record
sequence with nested-only `isMeta`. -/
theorem message_count_top_level_witness :
    (get_conversation_info "a.jsonl" "a" [rNestedMeta]).lookup "message_count" =
      some (JVal.num ((([rNestedMeta] : List Record).filter
        (fun m => !truthyOpt m.top.isMeta)).length : Int)) :=
  message_count_top_level "a.jsonl" "a" [rNestedMeta] (by decide)

/-- The characters of the first line of `content`, as in
`content.split("\n")[0]`. -/
def firstLineChars (content : String) : List Char :=
  content.data.takeWhile (fun c => c ≠ '\n')

/-- The claim's reading of `get_summary`: the `content` of the first
`"conversation_title"` record anywhere in the list takes priority; only
otherwise the first record with effective role `"user"` (top level first,
then nested) and effective string content yields its first line, at most
100 characters, with an ellipsis appended iff the returned text was
truncated; otherwise none. -/
def get_summary_claim (messages : List Record) : Option JVal :=
  match messages.find? (fun m => decide (m.top.type = some "conversation_title")) with
  | some m => some (m.top.content.getD (JVal.str ""))
  | none =>
    match messages.find? (fun m =>
        decide (pyOr m.top.role (nestedGet m (fun f => f.role)) = some (JVal.str "user")) &&
        (match pyOr m.top.content (nestedGet m (fun f => f.content)) with
         | some (JVal.str _) => true
         | _ => false)) with
    | some m =>
      match pyOr m.top.content (nestedGet m (fun f => f.content)) with
      | some (JVal.str content) =>
        some (JVal.str ⟨(firstLineChars content).take 100 ++
          (if 100 < (firstLineChars content).length then ('.' :: '.' :: '.' :: []) else [])⟩)
      | _ => none
    | none => none

/-- Whether a record stops the single forward scan of `get_summary`: either
a title record, or a user record with truthy string content, all at the top
level. -/
def summaryTrigger (m : Record) : Bool :=
  decide (m.top.type = some "conversation_title") ||
    (decide (m.top.role = some (JVal.str "user")) && truthyOpt m.top.content &&
      (match m.top.content with
       | some (JVal.str _) => true
       | _ => false))

/-- The amended description of `get_summary`: one forward scan; the first
record that triggers (title, or user with truthy top-level string content)
determines the result, with title taking priority within that record. -/
def get_summary_amended (messages : List Record) : Option JVal :=
  match messages.find? summaryTrigger with
  | none => none
  | some m =>
    if m.top.type = some "conversation_title" then some (m.top.content.getD (JVal.str ""))
    else
      match m.top.content with
      | some (JVal.str content) => some (JVal.str (summaryLine content))
      | _ => none

/-- A user record followed by a title record. -/
def exSummaryOrder : List Record :=
  [⟨{ noFields with role := some (JVal.str "user"), content := some (JVal.str "hello") },
     none⟩,
   ⟨{ noFields with type := some "conversation_title", content := some (JVal.str "Title") },
     none⟩]

/-- A 123-character content whose first line is only `"hi"`. -/
def longBody : String := ⟨'h' :: 'i' :: '\n' :: List.replicate 120 'a'⟩

/-- A single user record with `longBody` as content. -/
def exSummaryEllipsis : List Record :=
  [⟨{ noFields with role := some (JVal.str "user"), content := some (JVal.str longBody) },
     none⟩]

/-- A single record whose role and content sit only under the nested
`message` key. -/
def exSummaryNested : List Record :=
  [⟨noFields, some { noFields with role := some (JVal.str "user"), content := some (JVal.str "x") }⟩]

set_option maxRecDepth 10000 in
/-- C2 counterexample: the code's `get_summary` differs from the claim's
description on three concrete inputs: a title record later in the file does
not take priority over an earlier user record; the ellipsis follows the
full content length, not truncation of the returned first line; and nested
`message` fields are never consulted. -/
theorem get_summary_claim_cex :
    (get_summary exSummaryOrder = some (JVal.str "hello") ∧
       get_summary_claim exSummaryOrder = some (JVal.str "Title")) ∧
    (get_summary exSummaryEllipsis = some (JVal.str "hi...") ∧
       get_summary_claim exSummaryEllipsis = some (JVal.str "hi")) ∧
    (get_summary exSummaryNested = none ∧
       get_summary_claim exSummaryNested = some (JVal.str "x")) := by
  decide

/-- C2 (amended form): `get_summary` equals the single-forward-scan
description: the first record that is a title record or a user record with
truthy top-level string content decides the summary. -/
theorem get_summary_eq_amended :
    ∀ messages : List Record, get_summary messages = get_summary_amended messages := by
  have skip : ∀ (m : Record) (rest : List Record), summaryTrigger m = false →
      get_summary_amended (m :: rest) = get_summary_amended rest := by
    intro m rest htrig
    have hfind : List.find? summaryTrigger (m :: rest) = List.find? summaryTrigger rest :=
      List.find?_cons_of_neg _ (by simp [htrig])
    unfold get_summary_amended
    rw [hfind]
  intro messages
  induction messages with
  | nil => rfl
  | cons m rest ih =>
    by_cases ht : m.top.type = some "conversation_title"
    · have hp : summaryTrigger m = true := by simp [summaryTrigger, ht]
      simp [get_summary, get_summary_amended, List.find?_cons_of_pos _ hp, ht]
    · by_cases hr : m.top.role = some (JVal.str "user")
      · cases hc : m.top.content with
        | none =>
          have htrig : summaryTrigger m = false := by simp [summaryTrigger, ht, hc, truthyOpt]
          rw [skip m rest htrig, ← ih]
          simp [get_summary, ht, hc, truthyOpt]
        | some v =>
          cases v with
          | str s =>
            by_cases hts : truthyOpt (some (JVal.str s)) = true
            · have hp : summaryTrigger m = true := by simp [summaryTrigger, hr, hc, hts]
              have hfind : List.find? summaryTrigger (m :: rest) = some m :=
                List.find?_cons_of_pos _ hp
              unfold get_summary_amended
              rw [hfind]
              simp [get_summary, ht, hr, hc, hts]
            · have htrig : summaryTrigger m = false := by
                simp only [summaryTrigger, hc]
                simp only [Bool.eq_false_iff] at hts ⊢
                simp [ht, fun h => hts h]
              rw [skip m rest htrig, ← ih]
              have hcond : ¬(m.top.role = some (JVal.str "user") ∧
                  truthyOpt m.top.content = true) := by
                rintro ⟨-, h2⟩
                rw [hc] at h2
                exact hts h2
              simp only [get_summary]
              rw [if_neg ht, if_neg hcond]
          | num n =>
            have htrig : summaryTrigger m = false := by simp [summaryTrigger, ht, hc]
            rw [skip m rest htrig, ← ih]
            by_cases htv : truthy (JVal.num n) = true <;>
              simp [get_summary, ht, hr, hc, truthyOpt, htv]
          | bool b =>
            have htrig : summaryTrigger m = false := by simp [summaryTrigger, ht, hc]
            rw [skip m rest htrig, ← ih]
            by_cases htv : truthy (JVal.bool b) = true <;>
              simp [get_summary, ht, hr, hc, truthyOpt, htv]
          | null =>
            have htrig : summaryTrigger m = false := by simp [summaryTrigger, ht, hc]
            rw [skip m rest htrig, ← ih]
            simp [get_summary, ht, hr, hc, truthyOpt, truthy]
          | list elems =>
            have htrig : summaryTrigger m = false := by simp [summaryTrigger, ht, hc]
            rw [skip m rest htrig, ← ih]
            by_cases htv : truthy (JVal.list elems) = true <;>
              simp [get_summary, ht, hr, hc, truthyOpt, htv]
      · have htrig : summaryTrigger m = false := by simp [summaryTrigger, ht, hr]
        rw [skip m rest htrig, ← ih]
        simp [get_summary, ht, hr]

end ClaudeNotes
